import Mathlib

/-!
Verification of the evaluation utilities of a hierarchical recommender
repository (`src/utils.py`).  Python lists/arrays of floats are embedded as
`List ℚ`, matrices as `List (List ℚ)`, and pandas dataframes as lists of
(timestamp, payload) pairs.  The seeded `np.random.choice` is embedded as an
abstract selection function `pick`; every seed realises some `pick` that
returns an element of a nonempty list.
-/

namespace HierRec

/-- Embedding of `np.nonzero(a)[0]` on a 1-d array: the ascending list of
indices whose entry is nonzero. -/
def np_nonzero (a : List ℚ) : List ℕ :=
  (List.range a.length).filter (fun i => decide (a.getD i 0 ≠ 0))

/-- Embedding of `np.argsort(a)` on a 1-d array: the indices of `a` sorted
ascending by value.  Ties are broken by index (stable order); no claim below
depends on the tie order. -/
def np_argsort (a : List ℚ) : List ℕ :=
  (List.range a.length).insertionSort
    (fun i j => a.getD i 0 < a.getD j 0 ∨ (a.getD i 0 = a.getD j 0 ∧ i ≤ j))

/-- Embedding of `np.intersect1d(a, b)`: sorted unique values common to both
arrays. -/
def np_intersect1d (a b : List ℕ) : List ℕ :=
  ((a.filter (fun x => decide (x ∈ b))).dedup).insertionSort (fun x y => x ≤ y)

/-- Normalisation of a Python slice index: nonnegative indices are used as is,
negative indices count from the end (clamped at 0 by truncated subtraction). -/
def pyIdx (len : ℕ) (i : ℤ) : ℕ :=
  if 0 ≤ i then i.toNat else len - (-i).toNat

/-- Embedding of `l[:b]` (`df.iloc[:b]`). -/
def pySliceTo (l : List β) (b : ℤ) : List β := l.take (pyIdx l.length b)

/-- Embedding of `l[a:]` (`df.iloc[a:]`). -/
def pySliceFrom (l : List β) (a : ℤ) : List β := l.drop (pyIdx l.length a)

/-- Embedding of `l[a:b]` (`df.iloc[a:b]`). -/
def pySlice (l : List β) (a b : ℤ) : List β :=
  (l.take (pyIdx l.length b)).drop (pyIdx l.length a)

/-- Embedding of Python `int(q)`: truncation toward zero. -/
def pyInt (q : ℚ) : ℤ := if 0 ≤ q then ⌊q⌋ else ⌈q⌉

/-! ### Leave-one-out masking (`set_to_zero`, utils.py lines 137-142)

The source body is

  zero_idx = np.nonzero(row)[0]
  if any(zero_idx):
      np.random.seed(seed)
      row[np.random.choice(zero_idx)] = 0
  return row

Python's builtin `any` tests the truthiness of each index, so the guard is
`some index in zero_idx is nonzero`, not `zero_idx is nonempty`.  The
assignment `row[...] = 0` writes through the argument array object, and
`return row` returns that same object, which `MaskEffect` records. -/

/-- Contents of the caller's array object after `set_to_zero` returns
(`callerRow`), and of the returned array (`ret`). -/
structure MaskEffect where
  callerRow : List ℚ
  ret : List ℚ

/-- Embedding of the body of `set_to_zero`.  `pick` stands for the seeded
`np.random.choice`; a fixed seed realises one such function. -/
def set_to_zero_run (pick : List ℕ → ℕ) (row : List ℚ) : MaskEffect :=
  let zero_idx := np_nonzero row
  if zero_idx.any (fun i => decide (i ≠ 0)) then
    let masked := row.set (pick zero_idx) 0
    ⟨masked, masked⟩
  else
    ⟨row, row⟩

/-- The value returned by `set_to_zero`. -/
def set_to_zero (pick : List ℕ → ℕ) (row : List ℚ) : List ℚ :=
  (set_to_zero_run pick row).ret

/-! ### Precision (`get_precision`, utils.py lines 145-175) -/

/-- Embedding of the row expression `pred_y_ui * (train_x_ui == 0)`:
the prediction score where the train entry is zero, else 0. -/
def predMaskNew (pred train : List ℚ) : List ℚ :=
  List.zipWith (fun p t => if t = 0 then p else 0) pred train

/-- Embedding of the row expression `pred_y_ui * (train_x_ui != 0)`:
the prediction score where the train entry is nonzero, else 0. -/
def predMaskSeen (pred train : List ℚ) : List ℚ :=
  List.zipWith (fun p t => if t = 0 then 0 else p) pred train

/-- Embedding of `training_columns = np.nonzero(pred_y_ui * (train_x_ui != 0))[0]`. -/
def training_columns (pred train : List ℚ) : List ℕ :=
  np_nonzero (predMaskSeen pred train)

/-- Embedding of `sorted_scores = np.argsort(pred_y_ui * (train_x_ui == 0))[::-1]`. -/
def sorted_scores (pred train : List ℚ) : List ℕ :=
  (np_argsort (predMaskNew pred train)).reverse

/-- Embedding of
`recommended_columns = filter(lambda c: c not in training_columns, sorted_scores)`:
the per-user ranked recommendation candidate list of `get_precision`. -/
def recommended_columns (pred train : List ℚ) : List ℕ :=
  (sorted_scores pred train).filter (fun c => decide (c ∉ training_columns pred train))

/-- Embedding of `precision(purchased, recommended, k)` (utils.py lines 174-175). -/
def precision (purchased recommended : List ℕ) (k : ℕ) : ℚ :=
  ((np_intersect1d purchased (recommended.take k)).length : ℚ) / (k : ℚ)

/-- Embedding of `get_precision` (utils.py lines 145-171): mean over users of
`precision(test_columns, recommended_columns, k)`. -/
def get_precision (pred_y train_x test_x : List (List ℚ)) (k : ℕ) : ℚ :=
  let precisions := (List.range train_x.length).map (fun user =>
    precision (np_nonzero (test_x.getD user []))
      (recommended_columns (pred_y.getD user []) (train_x.getD user [])) k)
  precisions.sum / (precisions.length : ℚ)

/-! ### MRR (`_mrr_func` and `get_taxonomy_level_mrr`, utils.py lines 178-197) -/

/-- Recursion underlying `_mrr_func`: scan the ranked list, keeping the running
0-indexed `rank`; the first entry whose test value equals 1 yields
`1 / (rank + 1)` and stops the scan; exhaustion yields 0. -/
def mrrAux (user_testset : List ℚ) : List ℕ → ℕ → ℚ
  | [], _ => 0
  | r :: rest, rank =>
    if user_testset.getD r 0 = 1 then 1 / ((rank : ℚ) + 1)
    else mrrAux user_testset rest (rank + 1)

/-- Embedding of `_mrr_func(user_top_k_recommendations, user_testset)`
(utils.py lines 178-184). -/
def _mrr_func (user_top_k_recommendations : List ℕ) (user_testset : List ℚ) : ℚ :=
  mrrAux user_testset user_top_k_recommendations 0

/-- Embedding of `get_taxonomy_level_mrr(predictions, train, test, k)`
(utils.py lines 187-197): per row, argsort of `predictions * (train == 0)`
descending, top k, `_mrr_func` against the test row; the Python `zip`
truncates to the shorter operand; the sum is divided by
`predictions.shape[0]`. -/
def get_taxonomy_level_mrr (predictions train test : List (List ℚ)) (k : ℕ) : ℚ :=
  let top_k_recommendations :=
    List.zipWith (fun p t => ((np_argsort (predMaskNew p t)).reverse).take k) predictions train
  let contribs := List.zipWith (fun tk te => _mrr_func tk te) top_k_recommendations test
  contribs.sum / (predictions.length : ℚ)

/-- Row-indexed form of the source's per-row computation: for each row index,
rank ALL columns by the train-masked score `predictions * (train == 0)`
descending — train-seen columns are masked to score 0 but are NOT excluded
from the ranking, so they can occupy top-k slots — take the top k, apply the
single-row MRR against the corresponding test row, sum, and divide by the
total number of rows. -/
def get_taxonomy_level_mrr_rows (predictions train test : List (List ℚ)) (k : ℕ) : ℚ :=
  (((List.range predictions.length).map (fun i =>
    _mrr_func (((np_argsort (predMaskNew (predictions.getD i []) (train.getD i []))).reverse).take k)
      (test.getD i []))).sum) / (predictions.length : ℚ)

/-- The candidate list the claim describes for `evaluate_mrr`: only the
columns whose train entry is zero, ranked descending by the prediction
score. -/
def claim_candidates (pred train : List ℚ) : List ℕ :=
  ((np_argsort pred).reverse).filter (fun c => decide (train.getD c 0 = 0))

/-- The computation the claim describes for `evaluate_mrr`: per row, the top k
of the candidate columns with train zero ranked descending by score, scored by
the single-row MRR against the corresponding test row and averaged over all
rows. -/
def evaluate_mrr_claim (predictions train test : List (List ℚ)) (k : ℕ) : ℚ :=
  (((List.range predictions.length).map (fun i =>
    _mrr_func ((claim_candidates (predictions.getD i []) (train.getD i [])).take k)
      (test.getD i []))).sum) / (predictions.length : ℚ)

/-- Embedding of `weighted_mrr` (utils.py lines 200-205): the body returns the
tuple `0.5 * mrr_items, 0.2 * mrr_tags, 0.3 * mrr_categories` and never reads
`lambdas`. -/
def weighted_mrr (mrr_items mrr_tags mrr_categories : ℚ) (lambdas : List ℚ) : ℚ × ℚ × ℚ :=
  (0.5 * mrr_items, 0.2 * mrr_tags, 0.3 * mrr_categories)

/-! ### Time-based splitting (`two_way_split` / `three_way_split`, utils.py 18-60)

A dataframe is a list of rows `(timestamp, payload)`.  The first statement of
both functions, `df[timestamp_col] = pd.to_datetime(df[timestamp_col])`,
overwrites the timestamp column of the caller's dataframe object in place;
the subsequent `df = df.sort_values(...)` only rebinds the local name to a
sorted copy.  `dfAfter` records the caller's dataframe after the call.
A timestamp is either a raw value or an already parsed datetime; parsing
preserves the underlying instant. -/

/-- Timestamp column value: raw (e.g. integer epoch) or parsed datetime. -/
inductive TsVal where
  | raw : ℤ → TsVal
  | dt : ℤ → TsVal
deriving DecidableEq

/-- Embedding of `pd.to_datetime` on one value: parse a raw value, leave a
datetime unchanged. -/
def pd_to_datetime : TsVal → TsVal
  | .raw n => .dt n
  | .dt n => .dt n

/-- The instant a timestamp value denotes, used as the sort key. -/
def tsOrd : TsVal → ℤ
  | .raw n => n
  | .dt n => n

/-- Embedding of the column assignment
`df[timestamp_col] = pd.to_datetime(df[timestamp_col])`. -/
def convertTs (df : List (TsVal × α)) : List (TsVal × α) :=
  df.map (fun r => (pd_to_datetime r.1, r.2))

/-- Embedding of `df.sort_values([timestamp_col])`: rows sorted ascending by
timestamp (stable; no claim below depends on the tie order). -/
def sortByTs (df : List (TsVal × α)) : List (TsVal × α) :=
  df.insertionSort (fun a b => tsOrd a.1 ≤ tsOrd b.1)

/-- Result of `two_way_split`: the two returned partitions, plus the caller's
dataframe after the call. -/
structure Split2 (α : Type) where
  train : List (TsVal × α)
  test : List (TsVal × α)
  dfAfter : List (TsVal × α)

/-- Embedding of `two_way_split(df, train_frac, timestamp_col)`
(utils.py lines 42-60). -/
def two_way_split (df : List (TsVal × α)) (train_frac : ℚ) : Split2 α :=
  let df1 := convertTs df
  let dfs := sortByTs df1
  let anchor_train := pyInt ((dfs.length : ℚ) * train_frac)
  ⟨pySliceTo dfs anchor_train, pySliceFrom dfs anchor_train, df1⟩

/-- Result of `three_way_split`: the three returned partitions, plus the
caller's dataframe after the call. -/
structure Split3 (α : Type) where
  train : List (TsVal × α)
  val : List (TsVal × α)
  test : List (TsVal × α)
  dfAfter : List (TsVal × α)

/-- Embedding of `three_way_split(df, (train_frac, val_frac, test_frac),
timestamp_col)` (utils.py lines 18-39); the tuple is unpacked into the three
fraction arguments, and `test_frac` is never read by the body. -/
def three_way_split (df : List (TsVal × α)) (train_frac val_frac test_frac : ℚ) : Split3 α :=
  let df1 := convertTs df
  let dfs := sortByTs df1
  let anchor_train := pyInt ((dfs.length : ℚ) * train_frac)
  let anchor_val := pyInt ((dfs.length : ℚ) * (val_frac + train_frac))
  ⟨pySliceTo dfs anchor_train, pySlice dfs anchor_train anchor_val,
    pySliceFrom dfs anchor_val, df1⟩

/-! ### Helper lemmas -/

lemma mem_np_nonzero {a : List ℚ} {i : ℕ} :
    i ∈ np_nonzero a ↔ i < a.length ∧ a.getD i 0 ≠ 0 := by
  simp [np_nonzero, List.mem_filter, List.mem_range]

lemma mem_np_argsort {a : List ℚ} {i : ℕ} : i ∈ np_argsort a ↔ i < a.length := by
  unfold np_argsort
  rw [(List.perm_insertionSort _ _).mem_iff, List.mem_range]

lemma length_le_one_of_all_eq {l : List ℕ} (j : ℕ) (hn : l.Nodup) (h : ∀ x ∈ l, x = j) :
    l.length ≤ 1 := by
  match l, hn, h with
  | [], _, _ => simp
  | [a], _, _ => simp
  | a :: b ::  rest, hn, h =>
    exfalso
    have ha : a = j := h a (by simp)
    have hb : b = j := h b (by simp)
    have : a ≠ b := by
      have := List.nodup_cons.mp hn
      exact fun hab => this.1 (hab ▸ List.mem_cons_self b rest)
    exact this (ha.trans hb.symm)

/-- Closed form of the `_mrr_func` scan, with the running rank made explicit. -/
lemma mrrAux_eq (test_row : List ℚ) (recs : List ℕ) (rank : ℕ) :
    mrrAux test_row recs rank =
      if recs.any (fun r => decide (test_row.getD r 0 = 1))
      then 1 / ((rank : ℚ) + ((recs.findIdx (fun r => decide (test_row.getD r 0 = 1))) : ℚ) + 1)
      else 0 := by
  induction recs generalizing rank with
  | nil => simp [mrrAux]
  | cons r rest ih =>
    by_cases h : test_row.getD r 0 = 1
    · have hd : decide (test_row.getD r 0 = 1) = true := decide_eq_true h
      rw [mrrAux, if_pos h, List.any_cons, hd, List.findIdx_cons, hd]
      norm_num
    · have hd : decide (test_row.getD r 0 = 1) = false := decide_eq_false h
      rw [mrrAux, if_neg h, ih (rank + 1), List.any_cons, hd, List.findIdx_cons, hd]
      simp only [Bool.false_or, cond_false]
      split
      · push_cast
        ring_nf
      · rfl

lemma getD_set_self {l : List ℚ} {j : ℕ} (h : j < l.length) : (l.set j 0).getD j 0 = 0 := by
  rw [List.getD_eq_getElem _ _ (by simpa using h)]
  exact List.getElem_set_self _

lemma getD_set_ne {l : List ℚ} {i j : ℕ} (h : i ≠ j) : (l.set i 0).getD j 0 = l.getD j 0 := by
  by_cases hj : j < l.length
  · rw [List.getD_eq_getElem _ _ (by simpa using hj), List.getD_eq_getElem _ _ hj]
    exact List.getElem_set_ne h _
  · rw [List.getD_eq_default _ _ (by simpa using le_of_not_lt hj),
      List.getD_eq_default _ _ (le_of_not_lt hj)]

lemma getD_zipWith {f : ℚ → ℚ → ℚ} {a b : List ℚ} {c : ℕ} (ha : c < a.length)
    (hb : c < b.length) :
    (List.zipWith f a b).getD c 0 = f (a.getD c 0) (b.getD c 0) := by
  rw [List.getD_eq_getElem _ _ (by rw [List.length_zipWith]; omega),
    List.getD_eq_getElem _ _ ha, List.getD_eq_getElem _ _ hb]
  exact List.getElem_zipWith

lemma mem_training_columns {pred train : List ℚ} (h : pred.length = train.length) {c : ℕ} :
    c ∈ training_columns pred train ↔
      c < pred.length ∧ train.getD c 0 ≠ 0 ∧ pred.getD c 0 ≠ 0 := by
  unfold training_columns
  rw [mem_np_nonzero]
  have hlen : (predMaskSeen pred train).length = pred.length := by
    simp [predMaskSeen, List.length_zipWith, h]
  rw [hlen]
  constructor
  · rintro ⟨hc, hnz⟩
    rw [predMaskSeen, getD_zipWith hc (h ▸ hc)] at hnz
    by_cases ht : train.getD c 0 = 0
    · rw [if_pos ht] at hnz
      exact absurd rfl hnz
    · rw [if_neg ht] at hnz
      exact ⟨hc, ht, hnz⟩
  · rintro ⟨hc, ht, hp'⟩
    refine ⟨hc, ?_⟩
    rw [predMaskSeen, getD_zipWith hc (h ▸ hc), if_neg ht]
    exact hp'

/-- Sum form of the per-row loop of `get_taxonomy_level_mrr`: the zipped loop
equals the sum over row indices. -/
lemma mrr_sum_zip_eq (k : ℕ) (P : List (List ℚ)) : ∀ T E : List (List ℚ),
    P.length = T.length → P.length = E.length →
    (List.zipWith (fun tk te => _mrr_func tk te)
      (List.zipWith (fun p t => ((np_argsort (predMaskNew p t)).reverse).take k) P T) E).sum =
    ((List.range P.length).map (fun i =>
      _mrr_func (((np_argsort (predMaskNew (P.getD i []) (T.getD i []))).reverse).take k)
        (E.getD i []))).sum := by
  induction P with
  | nil =>
    intro T E h1 h2
    simp
  | cons p P ih =>
    intro T E h1 h2
    match T, E with
    | [], _ => simp at h1
    | _ :: _, [] => simp at h2
    | t :: T, e :: E =>
      simp only [List.zipWith_cons_cons, List.sum_cons, List.length_cons,
        List.range_succ_eq_map, List.map_cons, List.getD_cons_zero, List.map_map, List.sum_cons]
      rw [ih T E (by simpa using h1) (by simpa using h2)]
      congr 1

lemma length_convertTs {α : Type} {df : List (TsVal × α)} :
    (convertTs df).length = df.length := by
  simp [convertTs]

lemma length_sortByTs {α : Type} {df : List (TsVal × α)} :
    (sortByTs df).length = df.length :=
  (List.perm_insertionSort _ _).length_eq

lemma nodup_sortByTs {α : Type} {df : List (TsVal × α)} (h : df.Nodup) :
    (sortByTs df).Nodup :=
  (List.perm_insertionSort _ df).symm.nodup h

lemma pyIdx_of_nonneg {len : ℕ} {q : ℚ} (h : 0 ≤ q) : pyIdx len (pyInt q) = (⌊q⌋).toNat := by
  rw [pyInt, if_pos h, pyIdx, if_pos (Int.floor_nonneg.mpr h)]

lemma convertTs_eq_self_iff {α : Type} {df : List (TsVal × α)} :
    convertTs df = df ↔ ∀ r ∈ df, pd_to_datetime r.1 = r.1 := by
  induction df with
  | nil => simp [convertTs]
  | cons r df ih =>
    unfold convertTs at ih ⊢
    simp only [List.map_cons, List.cons.injEq, List.mem_cons]
    constructor
    · rintro ⟨h1, h2⟩
      intro x hx
      rcases hx with rfl | hx
      · exact congrArg Prod.fst h1
      · exact ih.mp h2 x hx
    · intro h
      exact ⟨Prod.ext_iff.mpr ⟨h r (Or.inl rfl), rfl⟩, ih.mpr fun x hx => h x (Or.inr hx)⟩

/-- Partition facts for a two-point slicing of a list at positions
`aN ≤ bN ≤ length`: the three pieces concatenate back to the list, have the
expected lengths, and (for a duplicate-free list) are pairwise disjoint. -/
lemma split_pieces {α : Type} {l : List (TsVal × α)} {aN bN : ℕ}
    (ha : aN ≤ bN) (hb : bN ≤ l.length) (hnd : l.Nodup) :
    l.take aN ++ ((l.take bN).drop aN ++ l.drop bN) = l ∧
    (l.take aN).length = aN ∧
    ((l.take bN).drop aN).length = bN - aN ∧
    (l.drop bN).length = l.length - bN ∧
    (l.take aN).Disjoint ((l.take bN).drop aN) ∧
    (l.take aN).Disjoint (l.drop bN) ∧
    ((l.take bN).drop aN).Disjoint (l.drop bN) := by
  have htk : l.take aN = (l.take bN).take aN := by
    rw [List.take_take, min_eq_left ha]
  refine ⟨?_, ?_, ?_, ?_, ?_, ?_, ?_⟩
  · rw [← List.append_assoc, htk, List.take_append_drop, List.take_append_drop]
  · rw [List.length_take, min_eq_left (le_trans ha hb)]
  · rw [List.length_drop, List.length_take, min_eq_left hb]
  · rw [List.length_drop]
  · rw [htk]
    exact List.disjoint_take_drop (List.Nodup.sublist (List.take_sublist _ _) hnd) (le_refl aN)
  · exact List.disjoint_take_drop hnd ha
  · rw [List.drop_take]
    have hdp : l.drop bN = (l.drop aN).drop (bN - aN) := by
      rw [List.drop_drop]
      congr 1
      omega
    rw [hdp]
    exact List.disjoint_take_drop
      (List.Nodup.sublist (List.drop_sublist _ _) hnd) (le_refl (bN - aN))

lemma two_way_split_train {α : Type} (df : List (TsVal × α)) {tf : ℚ} (h : 0 ≤ tf) :
    (two_way_split df tf).train =
      (sortByTs (convertTs df)).take
        ((⌊((sortByTs (convertTs df)).length : ℚ) * tf⌋).toNat) := by
  simp only [two_way_split, pySliceTo]
  rw [pyIdx_of_nonneg (mul_nonneg (Nat.cast_nonneg _) h)]

lemma two_way_split_test {α : Type} (df : List (TsVal × α)) {tf : ℚ} (h : 0 ≤ tf) :
    (two_way_split df tf).test =
      (sortByTs (convertTs df)).drop
        ((⌊((sortByTs (convertTs df)).length : ℚ) * tf⌋).toNat) := by
  simp only [two_way_split, pySliceFrom]
  rw [pyIdx_of_nonneg (mul_nonneg (Nat.cast_nonneg _) h)]

lemma three_way_split_train {α : Type} (df : List (TsVal × α)) {tf : ℚ} (vf tef : ℚ)
    (h : 0 ≤ tf) :
    (three_way_split df tf vf tef).train =
      (sortByTs (convertTs df)).take
        ((⌊((sortByTs (convertTs df)).length : ℚ) * tf⌋).toNat) := by
  simp only [three_way_split, pySliceTo]
  rw [pyIdx_of_nonneg (mul_nonneg (Nat.cast_nonneg _) h)]

lemma three_way_split_val {α : Type} (df : List (TsVal × α)) {tf vf : ℚ} (tef : ℚ)
    (h : 0 ≤ tf) (hv : 0 ≤ vf) :
    (three_way_split df tf vf tef).val =
      ((sortByTs (convertTs df)).take
          ((⌊((sortByTs (convertTs df)).length : ℚ) * (vf + tf)⌋).toNat)).drop
        ((⌊((sortByTs (convertTs df)).length : ℚ) * tf⌋).toNat) := by
  simp only [three_way_split, pySlice]
  rw [pyIdx_of_nonneg (mul_nonneg (Nat.cast_nonneg _) h),
    pyIdx_of_nonneg (mul_nonneg (Nat.cast_nonneg _) (by linarith))]

lemma three_way_split_test {α : Type} (df : List (TsVal × α)) {tf vf : ℚ} (tef : ℚ)
    (h : 0 ≤ tf) (hv : 0 ≤ vf) :
    (three_way_split df tf vf tef).test =
      (sortByTs (convertTs df)).drop
        ((⌊((sortByTs (convertTs df)).length : ℚ) * (vf + tf)⌋).toNat) := by
  simp only [three_way_split, pySliceFrom]
  rw [pyIdx_of_nonneg (mul_nonneg (Nat.cast_nonneg _) (by linarith))]

/-! ### Claim theorems -/

/-- C1: for all inputs and every value of `lambdas`, `weighted_mrr` returns the
triple of elementwise weighted terms with the fixed weights 0.5, 0.2, 0.3,
independent of `lambdas`. -/
theorem C1_weighted_mrr_fixed_triple (mi mt mc : ℚ) (l1 l2 : List ℚ) :
    weighted_mrr mi mt mc l1 = (0.5 * mi, 0.2 * mt, 0.3 * mc) ∧
    weighted_mrr mi mt mc l1 = weighted_mrr mi mt mc l2 :=
  ⟨rfl, rfl⟩

/-- C2 failing input: on the row `[1, 0, 0]`, whose single nonzero entry sits at
index 0, `set_to_zero` returns the row unchanged for every seed (modelled by an
arbitrary `pick`), because the Python guard `any(zero_idx)` is false on the
index list `[0]`; the claim (and the spec's leave-one-out contract) require the
all-zero row. -/
theorem C2_single_nonzero_at_index_zero_unmasked (pick : List ℕ → ℕ) :
    set_to_zero pick [1, 0, 0] = [1, 0, 0] := by
  have h : np_nonzero ([1, 0, 0] : List ℚ) = [0] := by decide
  simp [set_to_zero, set_to_zero_run, h]

/-- C8: `_mrr_func` returns `1 / (rank + 1)` where `rank` is the 0-indexed
position of the first entry of the ranked list marked relevant (test value 1),
and 0 when no entry is relevant — a single reciprocal-rank contribution, never
a sum; in particular on `test_row = [0, 1, 0, 1]` and top-k `[2, 0, 1]` it
returns 1/3. -/
theorem C8_mrr_single_first_hit :
    (∀ (recs : List ℕ) (test_row : List ℚ),
      _mrr_func recs test_row =
        if recs.any (fun r => decide (test_row.getD r 0 = 1))
        then 1 / (((recs.findIdx (fun r => decide (test_row.getD r 0 = 1))) : ℚ) + 1)
        else 0) ∧
    _mrr_func [2, 0, 1] [0, 1, 0, 1] = 1 / 3 := by
  constructor
  · intro recs test_row
    rw [_mrr_func, mrrAux_eq]
    norm_num
  · rw [_mrr_func]
    norm_num [mrrAux, List.getD]

/-- C6 counterexample: calling `set_to_zero` on the caller's row `[0, 1]`
(every seed masks index 1, the only nonzero index) leaves the caller's array
holding `[0, 0]`, not the original row: the masking is in place, not on a
copy. -/
theorem C6_counterexample_caller_row_mutated :
    (set_to_zero_run (fun l => l.headD 0) [0, 1]).callerRow ≠ [0, 1] := by
  decide

/-- C6 amended: `set_to_zero` masks in place — the returned array and the
caller's array after the call are the same; the caller's row is left unchanged
exactly when the Python guard `any(zero_idx)` fails, i.e. when no index of a
nonzero entry is itself nonzero. -/
theorem C6_set_to_zero_in_place (pick : List ℕ → ℕ)
    (hp : ∀ l : List ℕ, l ≠ [] → pick l ∈ l) (row : List ℚ) :
    (set_to_zero_run pick row).callerRow = (set_to_zero_run pick row).ret ∧
    ((set_to_zero_run pick row).callerRow = row ↔
      (np_nonzero row).any (fun i => decide (i ≠ 0)) = false) := by
  by_cases hg : (np_nonzero row).any (fun i => decide (i ≠ 0)) = true
  · have hne : np_nonzero row ≠ [] := by
      intro he
      rw [he] at hg
      simp at hg
    have hj : pick (np_nonzero row) ∈ np_nonzero row := hp _ hne
    have hjlt : pick (np_nonzero row) < row.length := (mem_np_nonzero.mp hj).1
    have hjnz : row.getD (pick (np_nonzero row)) 0 ≠ 0 := (mem_np_nonzero.mp hj).2
    have hrun : set_to_zero_run pick row =
        ⟨row.set (pick (np_nonzero row)) 0, row.set (pick (np_nonzero row)) 0⟩ := by
      simp only [set_to_zero_run]
      rw [if_pos hg]
    rw [hrun]
    refine ⟨rfl, iff_of_false ?_ ?_⟩
    · intro he
      have he' : row.set (pick (np_nonzero row)) 0 = row := he
      have h0 := getD_set_self hjlt
      rw [he'] at h0
      exact hjnz h0
    · intro hf
      rw [hg] at hf
      exact Bool.noConfusion hf
  · have hg' : (np_nonzero row).any (fun i => decide (i ≠ 0)) = false :=
      Bool.not_eq_true _ ▸ eq_false_of_ne_true hg
    have hrun : set_to_zero_run pick row = ⟨row, row⟩ := by
      simp only [set_to_zero_run]
      rw [if_neg hg]
    rw [hrun]
    exact ⟨rfl, iff_of_true rfl hg'⟩

/-- C6 witness: the amended statement instantiated at the row `[0, 1]` and the
selection function realised by every seed on that row. -/
theorem C6_witness :
    (set_to_zero_run (fun l => l.headD 0) [0, 1]).callerRow =
      (set_to_zero_run (fun l => l.headD 0) [0, 1]).ret ∧
    ((set_to_zero_run (fun l => l.headD 0) [0, 1]).callerRow = [0, 1] ↔
      (np_nonzero [0, 1]).any (fun i => decide (i ≠ 0)) = false) :=
  C6_set_to_zero_in_place (fun l => l.headD 0)
    (fun l hl => match l, hl with
      | a :: t, _ => List.mem_cons_self a t) [0, 1]

/-- C10: for every row and every seed (modelled by any selection function that
picks an element of a nonempty list), the row produced by `set_to_zero` has the
same length as the input, differs from it in at most one position, and any
position that differs held a nonzero value and now holds zero. -/
theorem C10_set_to_zero_changes_at_most_one (pick : List ℕ → ℕ)
    (hp : ∀ l : List ℕ, l ≠ [] → pick l ∈ l) (row : List ℚ) :
    (set_to_zero pick row).length = row.length ∧
    ((List.range row.length).filter
      (fun i => decide ((set_to_zero pick row).getD i 0 ≠ row.getD i 0))).length ≤ 1 ∧
    ∀ i : ℕ, (set_to_zero pick row).getD i 0 ≠ row.getD i 0 →
      row.getD i 0 ≠ 0 ∧ (set_to_zero pick row).getD i 0 = 0 := by
  by_cases hg : (np_nonzero row).any (fun i => decide (i ≠ 0)) = true
  · have hne : np_nonzero row ≠ [] := by
      intro he
      rw [he] at hg
      simp at hg
    have hj : pick (np_nonzero row) ∈ np_nonzero row := hp _ hne
    have hjlt : pick (np_nonzero row) < row.length := (mem_np_nonzero.mp hj).1
    have hjnz : row.getD (pick (np_nonzero row)) 0 ≠ 0 := (mem_np_nonzero.mp hj).2
    have hres : set_to_zero pick row = row.set (pick (np_nonzero row)) 0 := by
      simp only [set_to_zero, set_to_zero_run]
      rw [if_pos hg]
    have hdiff : ∀ i : ℕ, (set_to_zero pick row).getD i 0 ≠ row.getD i 0 →
        i = pick (np_nonzero row) := by
      intro i hi
      by_contra hne'
      rw [hres, getD_set_ne (fun he => hne' he.symm)] at hi
      exact hi rfl
    refine ⟨by rw [hres, List.length_set], ?_, ?_⟩
    · refine length_le_one_of_all_eq (pick (np_nonzero row))
        (List.Nodup.filter _ (List.nodup_range _)) ?_
      intro x hx
      exact hdiff x (of_decide_eq_true (List.mem_filter.mp hx).2)
    · intro i hi
      have hij := hdiff i hi
      subst hij
      rw [hres, getD_set_self hjlt]
      exact ⟨hjnz, rfl⟩
  · have hg' : (np_nonzero row).any (fun i => decide (i ≠ 0)) = false :=
      Bool.not_eq_true _ ▸ eq_false_of_ne_true hg
    have hres : set_to_zero pick row = row := by
      simp only [set_to_zero, set_to_zero_run]
      rw [if_neg hg]
    rw [hres]
    refine ⟨rfl, ?_, fun i hi => absurd rfl hi⟩
    have : ((List.range row.length).filter (fun i => decide (row.getD i 0 ≠ row.getD i 0))) = [] := by
      refine List.filter_eq_nil_iff.mpr ?_
      intro a _
      simp
    rw [this]
    simp

/-- C10 witness: the statement instantiated at the row `[0, 1, 0]` and the
selection function realised by every seed. -/
theorem C10_witness :
    (set_to_zero (fun l => l.headD 0) [0, 1, 0]).length = ([0, 1, 0] : List ℚ).length ∧
    ((List.range ([0, 1, 0] : List ℚ).length).filter
      (fun i => decide ((set_to_zero (fun l => l.headD 0) [0, 1, 0]).getD i 0 ≠
        ([0, 1, 0] : List ℚ).getD i 0))).length ≤ 1 ∧
    ∀ i : ℕ, (set_to_zero (fun l => l.headD 0) [0, 1, 0]).getD i 0 ≠
        ([0, 1, 0] : List ℚ).getD i 0 →
      ([0, 1, 0] : List ℚ).getD i 0 ≠ 0 ∧
        (set_to_zero (fun l => l.headD 0) [0, 1, 0]).getD i 0 = 0 :=
  C10_set_to_zero_changes_at_most_one (fun l => l.headD 0)
    (fun l hl => match l, hl with
      | a :: t, _ => List.mem_cons_self a t) [0, 1, 0]

/-- C3 counterexample: for the user row with predictions `[0, 2]` and train row
`[1, 0]`, the ranked candidate list of `get_precision` is `[1, 0]`, which
contains column 0 even though its train entry is nonzero — because the
exclusion set `np.nonzero(pred * (train != 0))` misses train columns whose
prediction score is zero.  The claim says the candidates are exactly the
columns with train zero, namely `[1]`. -/
theorem C3_counterexample_train_column_recommended :
    recommended_columns [0, 2] [1, 0] = [1, 0] ∧ ([1, 0] : List ℚ).getD 0 0 ≠ 0 := by
  decide

/-- C3 amended: in `get_precision`, a column the user interacted with in train
is excluded from the candidate list only when its prediction score is also
nonzero; the candidates are exactly the columns `c` with
`not (train[c] nonzero and pred[c] nonzero)`, ranked by the train-masked score
descending. -/
theorem C3_candidates_exclude_only_nonzero_scored_train (pred train : List ℚ)
    (h : pred.length = train.length) (c : ℕ) :
    c ∈ recommended_columns pred train ↔
      c < pred.length ∧ ¬(train.getD c 0 ≠ 0 ∧ pred.getD c 0 ≠ 0) := by
  unfold recommended_columns sorted_scores
  rw [List.mem_filter, List.mem_reverse, mem_np_argsort]
  have hlen : (predMaskNew pred train).length = pred.length := by
    simp [predMaskNew, List.length_zipWith, h]
  rw [hlen, decide_eq_true_iff, mem_training_columns h]
  constructor
  · rintro ⟨hc, hnin⟩
    exact ⟨hc, fun hcon => hnin ⟨hc, hcon.1, hcon.2⟩⟩
  · rintro ⟨hc, hn⟩
    exact ⟨hc, fun hcon => hn ⟨hcon.2.1, hcon.2.2⟩⟩

/-- C3 witness: the amended membership characterisation instantiated at the
counterexample row, at column 0. -/
theorem C3_witness :
    0 ∈ recommended_columns [0, 2] [1, 0] ↔
      0 < ([0, 2] : List ℚ).length ∧
        ¬(([1, 0] : List ℚ).getD 0 0 ≠ 0 ∧ ([0, 2] : List ℚ).getD 0 0 ≠ 0) :=
  C3_candidates_exclude_only_nonzero_scored_train [0, 2] [1, 0] rfl 0

/-- C9 counterexample: the top-k candidates of `get_taxonomy_level_mrr` are
NOT the columns with train zero.  The source argsorts `predictions *
(train == 0)` over ALL columns, so a train-seen column (masked to score 0)
stays in the ranking: at predictions `[[5, -1]]`, train `[[1, 0]]`, test
`[[0, 1]]`, k = 2, the masked row is `[0, -1]`, the ranking is `[0, 1]` with
the train-seen column 0 on top, and the first test hit sits at rank 1, so the
code returns 1/2; the claim's computation — candidates exactly the columns
with train zero, here `[1]` — puts the test hit at rank 0 and gives 1. -/
theorem C9_counterexample_train_column_in_topk :
    get_taxonomy_level_mrr [[5, -1]] [[1, 0]] [[0, 1]] 2 = 1 / 2 ∧
    evaluate_mrr_claim [[5, -1]] [[1, 0]] [[0, 1]] 2 = 1 := by
  have harg : ((np_argsort (predMaskNew [5, -1] [1, 0])).reverse).take 2 = [0, 1] := by
    decide
  have hc : (claim_candidates [5, -1] [1, 0]).take 2 = [1] := by
    decide
  constructor
  · norm_num [get_taxonomy_level_mrr, harg, _mrr_func, mrrAux, List.getD]
  · have hr : List.range 1 = [0] := by decide
    norm_num [evaluate_mrr_claim, hc, _mrr_func, mrrAux, hr,
      List.getD_cons_zero, List.getD_cons_succ, List.getD]

/-- C9 amended: `get_taxonomy_level_mrr` on aligned non-empty matrices returns
the sum over rows of the single-row MRR of the top-k of ALL columns ranked
descending by the train-masked score `predictions * (train == 0)` — train-seen
columns are masked to score 0 but not excluded from the ranking — divided by
the total number of rows, not by the number of rows that have a hit. -/
theorem C9_mrr_sum_masked_ranking_over_all_rows (P T E : List (List ℚ)) (k : ℕ)
    (h1 : P.length = T.length) (h2 : P.length = E.length) (h3 : 0 < P.length) :
    get_taxonomy_level_mrr P T E k = get_taxonomy_level_mrr_rows P T E k := by
  simp only [get_taxonomy_level_mrr, get_taxonomy_level_mrr_rows]
  rw [mrr_sum_zip_eq k P T E h1 h2]

/-- C9 witness: the amended statement instantiated at concrete aligned 2x2
matrices. -/
theorem C9_witness :
    get_taxonomy_level_mrr [[2, 0], [0, 3]] [[0, 1], [0, 0]] [[1, 0], [0, 1]] 1 =
      get_taxonomy_level_mrr_rows [[2, 0], [0, 3]] [[0, 1], [0, 0]] [[1, 0], [0, 1]] 1 :=
  C9_mrr_sum_masked_ranking_over_all_rows [[2, 0], [0, 3]] [[0, 1], [0, 0]] [[1, 0], [0, 1]] 1
    rfl rfl (by decide)

/-- C4: with fractions in `(0, 1)` (for the three-way split also a positive
validation fraction with `train_frac + val_frac < 1`) and a duplicate-free
table, both split functions partition the timestamp-sorted (parsed) table:
the pieces concatenate in order back to the sorted table, their lengths sum
to the row count, the boundaries sit at `floor(N * train_frac)` (and
`floor(N * (train_frac + val_frac))`), and the pieces are pairwise
disjoint. -/
theorem C4_splits_partition {α : Type} (df : List (TsVal × α)) (tf vf tef : ℚ)
    (h1 : 0 < tf) (h2 : tf < 1) (h3 : 0 < vf) (h4 : tf + vf < 1)
    (hnd : (convertTs df).Nodup) :
    ((two_way_split df tf).train ++ (two_way_split df tf).test = sortByTs (convertTs df) ∧
      (two_way_split df tf).train.length + (two_way_split df tf).test.length = df.length ∧
      (two_way_split df tf).train.length = (⌊(df.length : ℚ) * tf⌋).toNat ∧
      (two_way_split df tf).train.Disjoint (two_way_split df tf).test) ∧
    ((three_way_split df tf vf tef).train ++
        ((three_way_split df tf vf tef).val ++ (three_way_split df tf vf tef).test) =
          sortByTs (convertTs df) ∧
      (three_way_split df tf vf tef).train.length + (three_way_split df tf vf tef).val.length +
        (three_way_split df tf vf tef).test.length = df.length ∧
      (three_way_split df tf vf tef).train.length = (⌊(df.length : ℚ) * tf⌋).toNat ∧
      (three_way_split df tf vf tef).train.length + (three_way_split df tf vf tef).val.length =
        (⌊(df.length : ℚ) * (tf + vf)⌋).toNat ∧
      (three_way_split df tf vf tef).train.Disjoint (three_way_split df tf vf tef).val ∧
      (three_way_split df tf vf tef).train.Disjoint (three_way_split df tf vf tef).test ∧
      (three_way_split df tf vf tef).val.Disjoint (three_way_split df tf vf tef).test) := by
  have hN : (sortByTs (convertTs df)).length = df.length :=
    length_sortByTs.trans length_convertTs
  have hln : (sortByTs (convertTs df)).Nodup := nodup_sortByTs hnd
  have hq1 : (df.length : ℚ) * tf ≤ (df.length : ℚ) :=
    mul_le_of_le_one_right (Nat.cast_nonneg _) (le_of_lt h2)
  have hq2 : (df.length : ℚ) * (tf + vf) ≤ (df.length : ℚ) :=
    mul_le_of_le_one_right (Nat.cast_nonneg _) (by linarith)
  have hq3 : (df.length : ℚ) * tf ≤ (df.length : ℚ) * (tf + vf) :=
    mul_le_mul_of_nonneg_left (by linarith) (Nat.cast_nonneg _)
  have hAle : ⌊(df.length : ℚ) * tf⌋ ≤ (df.length : ℤ) := by
    have hf := Int.floor_le_floor hq1
    rwa [Int.floor_natCast] at hf
  have hBle : ⌊(df.length : ℚ) * (tf + vf)⌋ ≤ (df.length : ℤ) := by
    have hf := Int.floor_le_floor hq2
    rwa [Int.floor_natCast] at hf
  have hAN : (⌊(df.length : ℚ) * tf⌋).toNat ≤ df.length := Int.toNat_le.mpr hAle
  have hBN : (⌊(df.length : ℚ) * (tf + vf)⌋).toNat ≤ df.length := Int.toNat_le.mpr hBle
  have hAB : (⌊(df.length : ℚ) * tf⌋).toNat ≤ (⌊(df.length : ℚ) * (tf + vf)⌋).toNat :=
    Int.toNat_le_toNat (Int.floor_le_floor hq3)
  have hBl : (⌊(df.length : ℚ) * (tf + vf)⌋).toNat ≤ (sortByTs (convertTs df)).length := by
    rw [hN]
    exact hBN
  obtain ⟨hcat, hlen1, hlen2, hlen3, hd1, hd2, hd3⟩ := split_pieces hAB hBl hln
  have hcomm : (df.length : ℚ) * (vf + tf) = (df.length : ℚ) * (tf + vf) := by ring
  simp only [two_way_split_train df (le_of_lt h1), two_way_split_test df (le_of_lt h1),
    three_way_split_train df vf tef (le_of_lt h1),
    three_way_split_val df tef (le_of_lt h1) (le_of_lt h3),
    three_way_split_test df tef (le_of_lt h1) (le_of_lt h3), hN, hcomm]
  refine ⟨⟨List.take_append_drop _ _, ?_, hlen1, List.disjoint_take_drop hln (le_refl _)⟩,
    hcat, ?_, hlen1, ?_, hd1, hd2, hd3⟩
  · rw [hlen1, List.length_drop, hN]
    omega
  · rw [hlen1, hlen2, hlen3, hN]
    omega
  · rw [hlen1, hlen2]
    omega

/-- C4 witness: the two-way concatenation property instantiated at a concrete
three-row table with fractions 1/2 and 1/4. -/
theorem C4_witness :
    (two_way_split [(TsVal.dt 3, (0 : ℕ)), (TsVal.dt 1, 1), (TsVal.dt 2, 2)] (1/2)).train ++
        (two_way_split [(TsVal.dt 3, (0 : ℕ)), (TsVal.dt 1, 1), (TsVal.dt 2, 2)] (1/2)).test =
      sortByTs (convertTs [(TsVal.dt 3, (0 : ℕ)), (TsVal.dt 1, 1), (TsVal.dt 2, 2)]) :=
  (C4_splits_partition [(TsVal.dt 3, (0 : ℕ)), (TsVal.dt 1, 1), (TsVal.dt 2, 2)]
    (1/2) (1/4) (1/4) (by norm_num) (by norm_num) (by norm_num) (by norm_num)
    (by decide)).1.1

/-- C5 counterexample: with the out-of-range fraction 2, `two_way_split` does
not fail — there is no validation in the source — it slices and returns the
whole (sorted, parsed) table as train and an empty test. -/
theorem C5_counterexample_fraction_two_slices :
    (two_way_split [(TsVal.dt 0, (0 : ℕ))] 2).train = [(TsVal.dt 0, 0)] ∧
    (two_way_split [(TsVal.dt 0, (0 : ℕ))] 2).test = [] := by
  have hs : sortByTs (convertTs [(TsVal.dt 0, (0 : ℕ))]) = [(TsVal.dt 0, 0)] := by
    simp [sortByTs, convertTs, pd_to_datetime, List.insertionSort, List.orderedInsert]
  have hpy : pyInt ((([((TsVal.dt 0 : TsVal), (0 : ℕ))].length : ℕ) : ℚ) * 2) = 2 := by
    rw [pyInt, if_pos (by norm_num)]
    rw [show ((([((TsVal.dt 0 : TsVal), (0 : ℕ))].length : ℕ) : ℚ) * 2) = ((2 : ℤ) : ℚ) by
      norm_num]
    exact Int.floor_intCast 2
  simp only [two_way_split, hs, hpy]
  exact ⟨by decide, by decide⟩

/-- C5 amended: the split functions perform no validation.  A train fraction
of at least 1 (with a nonnegative validation fraction) is accepted silently;
the out-of-range anchors are clamped by the slicing, giving the whole sorted
table as train and empty remaining partitions. -/
theorem C5_out_of_range_fraction_clamped {α : Type} (df : List (TsVal × α)) (tf vf tef : ℚ)
    (h : 1 ≤ tf) (hv : 0 ≤ vf) :
    (two_way_split df tf).train = sortByTs (convertTs df) ∧
    (two_way_split df tf).test = [] ∧
    (three_way_split df tf vf tef).train = sortByTs (convertTs df) ∧
    (three_way_split df tf vf tef).val = [] ∧
    (three_way_split df tf vf tef).test = [] := by
  have h0 : (0 : ℚ) ≤ tf := by linarith
  have hN : (sortByTs (convertTs df)).length = df.length :=
    length_sortByTs.trans length_convertTs
  have hge1 : (df.length : ℤ) ≤ ⌊(df.length : ℚ) * tf⌋ :=
    Int.le_floor.mpr (by push_cast; exact le_mul_of_one_le_right (Nat.cast_nonneg _) h)
  have hge2 : (df.length : ℤ) ≤ ⌊(df.length : ℚ) * (vf + tf)⌋ :=
    Int.le_floor.mpr (by push_cast; exact le_mul_of_one_le_right (Nat.cast_nonneg _) (by linarith))
  have hA : df.length ≤ (⌊(df.length : ℚ) * tf⌋).toNat := by omega
  have hB : df.length ≤ (⌊(df.length : ℚ) * (vf + tf)⌋).toNat := by omega
  refine ⟨?_, ?_, ?_, ?_, ?_⟩
  · rw [two_way_split_train df h0, hN]
    exact List.take_of_length_le (by rw [hN]; exact hA)
  · rw [two_way_split_test df h0, hN]
    exact List.drop_eq_nil_of_le (by rw [hN]; exact hA)
  · rw [three_way_split_train df vf tef h0, hN]
    exact List.take_of_length_le (by rw [hN]; exact hA)
  · rw [three_way_split_val df tef h0 hv, hN]
    refine List.drop_eq_nil_of_le ?_
    rw [List.length_take, hN]
    omega
  · rw [three_way_split_test df tef h0 hv, hN]
    exact List.drop_eq_nil_of_le (by rw [hN]; exact hB)

/-- C5 witness: the amended statement instantiated at a one-row table with
train fraction 2. -/
theorem C5_witness :
    (two_way_split [(TsVal.dt 7, (0 : ℕ))] 2).train =
      sortByTs (convertTs [(TsVal.dt 7, (0 : ℕ))]) :=
  (C5_out_of_range_fraction_clamped [(TsVal.dt 7, (0 : ℕ))] 2 0 0
    (by norm_num) (le_refl 0)).1

/-- C7 counterexample: on a table whose timestamp column holds a raw value,
the caller's table after `two_way_split` is not the original table — its
timestamp column has been overwritten in place by the `pd.to_datetime`
conversion. -/
theorem C7_counterexample_caller_table_mutated :
    (two_way_split [(TsVal.raw 5, (0 : ℕ))] 2).dfAfter ≠ [(TsVal.raw 5, 0)] := by
  decide

/-- C7 amended: both split functions mutate the caller's table by replacing
its timestamp column with the parsed (`pd.to_datetime`) values, and do nothing
else to it: the caller's table is unchanged exactly when every timestamp is
already a datetime, and the payload column (row order included) is always
preserved. -/
theorem C7_split_mutates_timestamp_column {α : Type} (df : List (TsVal × α)) (tf vf tef : ℚ) :
    ((two_way_split df tf).dfAfter = df ↔ ∀ r ∈ df, pd_to_datetime r.1 = r.1) ∧
    ((three_way_split df tf vf tef).dfAfter = df ↔ ∀ r ∈ df, pd_to_datetime r.1 = r.1) ∧
    (two_way_split df tf).dfAfter.map Prod.snd = df.map Prod.snd ∧
    (three_way_split df tf vf tef).dfAfter.map Prod.snd = df.map Prod.snd := by
  have h2 : (two_way_split df tf).dfAfter = convertTs df := rfl
  have h3 : (three_way_split df tf vf tef).dfAfter = convertTs df := rfl
  rw [h2, h3]
  refine ⟨convertTs_eq_self_iff, convertTs_eq_self_iff, ?_, ?_⟩ <;>
    simp [convertTs, List.map_map, Function.comp]

end HierRec
